import Mathlib

/-!
# Verification of the pylon-mcp filter-sanitization and response-projection layer

This file gives a shallow embedding, in Lean 4, of the query-filter
sanitization and response-projection layer of the pylon-mcp repository
(`src/pylon-client.ts`, `src/schemas.ts`, `src/index.ts`), and proves the
specification's claims about it.

JavaScript values are modelled by the mutual inductive `JValue`/`JObj`:
objects are ordered association lists (the iteration order of
`Object.entries`), `undefined` and `null` are distinct constructors, and
strings are Lean `String`s (one `Char` per UTF-16 code unit for the
texts involved here).
-/

namespace PylonMcp

mutual
/-- A JavaScript value as handled by the filter/projection layer:
string, number, boolean, `null`, `undefined`, array, or object. -/
inductive JValue : Type where
  | str : String → JValue
  | num : Int → JValue
  | jbool : Bool → JValue
  | null : JValue
  | undefined : JValue
  | arr : List JValue → JValue
  | obj : JObj → JValue

/-- A JavaScript object: an ordered list of key/value entries, in the
iteration order of `Object.entries`. -/
inductive JObj : Type where
  | nil : JObj
  | cons : String → JValue → JObj → JObj
end

/-- The entries of a `JObj` as a Lean list, in iteration order. -/
def JObj.entries : JObj → List (String × JValue)
  | .nil => []
  | .cons k v rest => (k, v) :: rest.entries

/-- The keys of a `JObj`, in iteration order. -/
def JObj.keys : JObj → List String
  | .nil => []
  | .cons k _ rest => k :: rest.keys

/-- JavaScript property access `o[k]`: the first entry with key `k`,
or `undefined` when the key is missing. -/
def JObj.getProp : JObj → String → JValue
  | .nil, _ => .undefined
  | .cons k v rest, key => if k = key then v else rest.getProp key

/--
The per-field operator whitelist `VALID_OPERATORS` of
`src/pylon-client.ts`: for each field name known to the sanitizer, the
set (here: list) of operator names that field accepts; `none` for
unknown fields.
-/
def VALID_OPERATORS (field : String) : Option (List String) :=
  if field = "created_at" then some ["time_is_after", "time_is_before", "time_range"]
  else if field = "resolved_at" then some ["time_is_after", "time_is_before", "time_range"]
  else if field = "latest_message_activity_at" then
    some ["time_is_after", "time_is_before", "time_range"]
  else if field = "title" then some ["string_contains", "string_does_not_contain"]
  else if field = "id" then some ["equals", "in", "not_in"]
  else if field = "account_id" then some ["equals", "in", "not_in", "is_set", "is_unset"]
  else if field = "requester_id" then some ["equals", "in", "not_in", "is_set", "is_unset"]
  else if field = "assignee_id" then some ["equals", "in", "not_in", "is_set", "is_unset"]
  else if field = "team_id" then some ["equals", "in", "not_in", "is_set", "is_unset"]
  else if field = "ticket_form_id" then some ["equals", "in", "not_in", "is_set", "is_unset"]
  else if field = "follower_user_id" then some ["equals", "in", "not_in"]
  else if field = "follower_contact_id" then some ["equals", "in", "not_in"]
  else if field = "state" then some ["equals", "in", "not_in"]
  else if field = "issue_type" then some ["equals", "in", "not_in"]
  else if field = "tags" then some ["contains", "does_not_contain", "in", "not_in"]
  else if field = "domains" then some ["contains", "does_not_contain"]
  else if field = "name" then some ["equals", "string_contains"]
  else if field = "external_ids" then some ["equals", "in", "not_in", "is_set", "is_unset"]
  else if field = "email" then some ["equals", "string_contains", "in", "not_in"]
  else none

/--
The inner loop of `cleanFilter` for a known field: keep only the entries
of the operator map whose operator name is in the field's whitelist and
whose operand is neither `undefined` nor `null`.  (The source's special
case for `time_range` assigns the operand unchanged in both branches,
so it is a no-op.)
-/
def cleanOps (valid : List String) : JObj → JObj
  | .nil => .nil
  | .cons op opValue rest =>
    match opValue with
    | .undefined => cleanOps valid rest
    | .null => cleanOps valid rest
    | v =>
      if op ∈ valid then .cons op v (cleanOps valid rest)
      else cleanOps valid rest

/--
The body of `cleanFilter` (`src/pylon-client.ts`), producing the `result`
object it accumulates: drop `null`/`undefined` fields; for a known field
with an object value keep only whitelisted operators (dropping the field
when none survive); recursively clean unknown fields with object values
(dropping them when the recursive clean is empty); pass every other
value (scalar or array) through unchanged.
-/
def cleanFilterObj : JObj → JObj
  | .nil => .nil
  | .cons fieldName fieldValue rest =>
    match fieldValue with
    | .undefined => cleanFilterObj rest
    | .null => cleanFilterObj rest
    | .obj fieldObj =>
      (match VALID_OPERATORS fieldName with
       | some valid =>
         match cleanOps valid fieldObj with
         | .nil => cleanFilterObj rest
         | c => .cons fieldName (.obj c) (cleanFilterObj rest)
       | none =>
         match cleanFilterObj fieldObj with
         | .nil => cleanFilterObj rest
         | c => .cons fieldName (.obj c) (cleanFilterObj rest))
    | v => .cons fieldName v (cleanFilterObj rest)
termination_by o => sizeOf o

/--
`cleanFilter` of `src/pylon-client.ts`: returns the accumulated result
object when it has at least one key, and `undefined` (here `none`)
otherwise.
-/
def cleanFilter (obj : JObj) : Option JObj :=
  match cleanFilterObj obj with
  | .nil => none
  | r => some r

/-! ## Unfolding lemmas for cleanFilterObj -/

lemma cleanFilterObj_nil : cleanFilterObj .nil = .nil := by
  rw [cleanFilterObj]

lemma cleanFilterObj_cons_undef (k : String) (rest : JObj) :
    cleanFilterObj (.cons k .undefined rest) = cleanFilterObj rest := by
  rw [cleanFilterObj]

lemma cleanFilterObj_cons_null (k : String) (rest : JObj) :
    cleanFilterObj (.cons k .null rest) = cleanFilterObj rest := by
  rw [cleanFilterObj]

lemma cleanFilterObj_cons_obj_known (k : String) (fieldObj rest : JObj) (valid : List String)
    (h : VALID_OPERATORS k = some valid) :
    cleanFilterObj (.cons k (.obj fieldObj) rest) =
      match cleanOps valid fieldObj with
      | .nil => cleanFilterObj rest
      | c => .cons k (.obj c) (cleanFilterObj rest) := by
  rw [cleanFilterObj, h]

lemma cleanFilterObj_cons_obj_unknown (k : String) (fieldObj rest : JObj)
    (h : VALID_OPERATORS k = none) :
    cleanFilterObj (.cons k (.obj fieldObj) rest) =
      match cleanFilterObj fieldObj with
      | .nil => cleanFilterObj rest
      | c => .cons k (.obj c) (cleanFilterObj rest) := by
  rw [cleanFilterObj, h]

lemma cleanFilterObj_cons_str (k : String) (s : String) (rest : JObj) :
    cleanFilterObj (.cons k (.str s) rest) = .cons k (.str s) (cleanFilterObj rest) := by
  rw [cleanFilterObj] <;> simp

lemma cleanFilterObj_cons_num (k : String) (n : Int) (rest : JObj) :
    cleanFilterObj (.cons k (.num n) rest) = .cons k (.num n) (cleanFilterObj rest) := by
  rw [cleanFilterObj] <;> simp

lemma cleanFilterObj_cons_jbool (k : String) (b : Bool) (rest : JObj) :
    cleanFilterObj (.cons k (.jbool b) rest) = .cons k (.jbool b) (cleanFilterObj rest) := by
  rw [cleanFilterObj] <;> simp

lemma cleanFilterObj_cons_arr (k : String) (xs : List JValue) (rest : JObj) :
    cleanFilterObj (.cons k (.arr xs) rest) = .cons k (.arr xs) (cleanFilterObj rest) := by
  rw [cleanFilterObj] <;> simp

/-! ## Properties of cleanOps -/

/-- Whether a value is `undefined` or `null` (the operands dropped by the
sanitizer). -/
def JValue.isNullish : JValue → Bool
  | .undefined => true
  | .null => true
  | _ => false

lemma JValue.isNullish_iff (v : JValue) :
    v.isNullish = true ↔ v = .undefined ∨ v = .null := by
  cases v <;> simp [JValue.isNullish]

lemma cleanOps_cons (valid : List String) (op' : String) (v' : JValue) (rest : JObj) :
    cleanOps valid (.cons op' v' rest) =
      if v'.isNullish then cleanOps valid rest
      else if op' ∈ valid then .cons op' v' (cleanOps valid rest) else cleanOps valid rest := by
  cases v' <;> simp [cleanOps, JValue.isNullish]

/-- Every entry surviving `cleanOps` has a whitelisted operator name and a
non-`null`, non-`undefined` operand. -/
lemma cleanOps_mem (valid : List String) (o : JObj) :
    ∀ op v, (op, v) ∈ (cleanOps valid o).entries →
      op ∈ valid ∧ v ≠ JValue.undefined ∧ v ≠ JValue.null := by
  induction o using JObj.entries.induct with
  | case1 => intro op v h; simp [cleanOps, JObj.entries] at h
  | case2 op' v' rest ih =>
    intro op v h
    rw [cleanOps_cons] at h
    by_cases hnv : v'.isNullish = true
    · rw [if_pos hnv] at h; exact ih op v h
    · rw [if_neg hnv] at h
      by_cases hm : op' ∈ valid
      · rw [if_pos hm, JObj.entries] at h
        rcases List.mem_cons.mp h with heq | htail
        · cases heq
          rw [JValue.isNullish_iff] at hnv
          push_neg at hnv
          exact ⟨hm, hnv.1, hnv.2⟩
        · exact ih op v htail
      · rw [if_neg hm] at h; exact ih op v h

/-- `cleanOps` is idempotent. -/
lemma cleanOps_idem (valid : List String) (o : JObj) :
    cleanOps valid (cleanOps valid o) = cleanOps valid o := by
  induction o using JObj.entries.induct with
  | case1 => simp [cleanOps]
  | case2 op v rest ih =>
    rw [cleanOps_cons]
    by_cases hnv : v.isNullish = true
    · rw [if_pos hnv]; exact ih
    · rw [if_neg hnv]
      by_cases hm : op ∈ valid
      · rw [if_pos hm, cleanOps_cons, if_neg hnv, if_pos hm, ih]
      · rw [if_neg hm]; exact ih


/-! ## The sanitization invariant (claim C1) -/

/-- Every entry of `cleanFilterObj o` is non-empty as an operator map, and
for known fields all surviving operators are whitelisted. -/
lemma cleanFilterObj_invariant (o : JObj) :
    ∀ k v, (k, v) ∈ (cleanFilterObj o).entries →
      v ≠ JValue.obj JObj.nil ∧
      ∀ valid ops, VALID_OPERATORS k = some valid → v = JValue.obj ops →
        ∀ op x, (op, x) ∈ ops.entries → op ∈ valid := by
  induction o using cleanFilterObj.induct with
  | case1 =>
    intro k v h
    rw [cleanFilterObj_nil] at h
    simp [JObj.entries] at h
  | case2 k' rest ih =>
    intro k v h
    rw [cleanFilterObj_cons_undef] at h
    exact ih k v h
  | case3 k' rest ih =>
    intro k v h
    rw [cleanFilterObj_cons_null] at h
    exact ih k v h
  | case4 k' rest fieldObj valid hv hc ih =>
    intro k v h
    rw [cleanFilterObj_cons_obj_known k' fieldObj rest valid hv, hc] at h
    exact ih k v h
  | case5 k' rest fieldObj valid hv hc ih =>
    intro k v h
    rw [cleanFilterObj_cons_obj_known k' fieldObj rest valid hv] at h
    rcases hco : cleanOps valid fieldObj with _ | ⟨op1, v1, r1⟩
    · exact absurd hco hc
    · rw [hco] at h
      simp only [JObj.entries, List.mem_cons] at h
      rcases h with heq | htail
      · cases heq
        refine ⟨by simp, ?_⟩
        intro valid' ops hv' hobj
        rw [hv] at hv'
        cases hv'
        cases hobj
        intro op x hx
        exact (cleanOps_mem valid fieldObj op x (hco ▸ hx)).1
      · exact ih k v htail
  | case6 k' rest fieldObj hv hc ihf ih =>
    intro k v h
    rw [cleanFilterObj_cons_obj_unknown k' fieldObj rest hv, hc] at h
    exact ih k v h
  | case7 k' rest fieldObj hv hc ihf ih =>
    intro k v h
    rw [cleanFilterObj_cons_obj_unknown k' fieldObj rest hv] at h
    rcases hco : cleanFilterObj fieldObj with _ | ⟨op1, v1, r1⟩
    · exact absurd hco hc
    · rw [hco] at h
      simp only [JObj.entries, List.mem_cons] at h
      rcases h with heq | htail
      · cases heq
        refine ⟨by simp, ?_⟩
        intro valid' ops hv' hobj
        rw [hv] at hv'
        cases hv'
      · exact ih k v htail
  | case8 k' rest v' hne1 hne2 hne3 ih =>
    intro k v h
    cases v' with
    | undefined => exact absurd rfl hne1
    | null => exact absurd rfl hne2
    | obj o' => exact absurd rfl (hne3 o')
    | str s =>
      rw [cleanFilterObj_cons_str] at h
      simp only [JObj.entries, List.mem_cons] at h
      rcases h with heq | htail
      · cases heq
        exact ⟨by simp, fun valid' ops _ hobj => by cases hobj⟩
      · exact ih k v htail
    | num n =>
      rw [cleanFilterObj_cons_num] at h
      simp only [JObj.entries, List.mem_cons] at h
      rcases h with heq | htail
      · cases heq
        exact ⟨by simp, fun valid' ops _ hobj => by cases hobj⟩
      · exact ih k v htail
    | jbool b =>
      rw [cleanFilterObj_cons_jbool] at h
      simp only [JObj.entries, List.mem_cons] at h
      rcases h with heq | htail
      · cases heq
        exact ⟨by simp, fun valid' ops _ hobj => by cases hobj⟩
      · exact ih k v htail
    | arr xs =>
      rw [cleanFilterObj_cons_arr] at h
      simp only [JObj.entries, List.mem_cons] at h
      rcases h with heq | htail
      · cases heq
        exact ⟨by simp, fun valid' ops _ hobj => by cases hobj⟩
      · exact ih k v htail

/-- Relating the `Option`-valued `cleanFilter` to its body. -/
lemma cleanFilter_eq_some {f r : JObj} (h : cleanFilter f = some r) :
    cleanFilterObj f = r ∧ r ≠ JObj.nil := by
  unfold cleanFilter at h
  rcases hc : cleanFilterObj f with _ | ⟨a, b, c⟩
  · rw [hc] at h; simp at h
  · rw [hc] at h
    simp only [Option.some.injEq] at h
    exact ⟨h, h ▸ (by simp)⟩


/-! ## Idempotence (claim C7) -/

/-- The body of `cleanFilter` is idempotent. -/
lemma cleanFilterObj_idem (o : JObj) :
    cleanFilterObj (cleanFilterObj o) = cleanFilterObj o := by
  induction o using cleanFilterObj.induct with
  | case1 => rw [cleanFilterObj_nil, cleanFilterObj_nil]
  | case2 k rest ih => rw [cleanFilterObj_cons_undef]; exact ih
  | case3 k rest ih => rw [cleanFilterObj_cons_null]; exact ih
  | case4 k rest fieldObj valid hv hc ih =>
    rw [cleanFilterObj_cons_obj_known k fieldObj rest valid hv, hc]
    exact ih
  | case5 k rest fieldObj valid hv hc ih =>
    rw [cleanFilterObj_cons_obj_known k fieldObj rest valid hv]
    rcases hco : cleanOps valid fieldObj with _ | ⟨op1, v1, r1⟩
    · exact absurd hco hc
    · have hidem : cleanOps valid (JObj.cons op1 v1 r1) = JObj.cons op1 v1 r1 := by
        rw [← hco, cleanOps_idem]
      simp only
      rw [cleanFilterObj_cons_obj_known k (JObj.cons op1 v1 r1) (cleanFilterObj rest) valid hv,
        hidem]
      simp only
      rw [ih]
  | case6 k rest fieldObj hv hc ihf ih =>
    rw [cleanFilterObj_cons_obj_unknown k fieldObj rest hv, hc]
    exact ih
  | case7 k rest fieldObj hv hc ihf ih =>
    rw [cleanFilterObj_cons_obj_unknown k fieldObj rest hv]
    rcases hco : cleanFilterObj fieldObj with _ | ⟨op1, v1, r1⟩
    · exact absurd hco hc
    · have hidem : cleanFilterObj (JObj.cons op1 v1 r1) = JObj.cons op1 v1 r1 := by
        rw [← hco, ihf]
      simp only
      rw [cleanFilterObj_cons_obj_unknown k (JObj.cons op1 v1 r1) (cleanFilterObj rest) hv,
        hidem]
      simp only
      rw [ih]
  | case8 k rest v hne1 hne2 hne3 ih =>
    cases v with
    | undefined => exact absurd rfl hne1
    | null => exact absurd rfl hne2
    | obj o' => exact absurd rfl (hne3 o')
    | str s => rw [cleanFilterObj_cons_str, cleanFilterObj_cons_str, ih]
    | num n => rw [cleanFilterObj_cons_num, cleanFilterObj_cons_num, ih]
    | jbool b => rw [cleanFilterObj_cons_jbool, cleanFilterObj_cons_jbool, ih]
    | arr xs => rw [cleanFilterObj_cons_arr, cleanFilterObj_cons_arr, ih]


/--
**C1.** For every filter object `f`, the result of `cleanFilter f`
satisfies the sanitization invariant: the result is never the empty
object (when every field is eliminated the result is `undefined`, i.e.
`none`); no surviving field maps to an empty operator map; and for every
surviving field known to the operator whitelist, every operator key in
its operator map is a member of that field's whitelist.
-/
theorem cleanFilter_sanitization_invariant (f r : JObj) (h : cleanFilter f = some r) :
    r.entries ≠ [] ∧
    ∀ k v, (k, v) ∈ r.entries →
      v ≠ JValue.obj JObj.nil ∧
      ∀ valid ops, VALID_OPERATORS k = some valid → v = JValue.obj ops →
        ∀ op x, (op, x) ∈ ops.entries → op ∈ valid := by
  obtain ⟨hf, hne⟩ := cleanFilter_eq_some h
  constructor
  · cases r with
    | nil => exact absurd rfl hne
    | cons a b c => simp [JObj.entries]
  · intro k v hm
    exact cleanFilterObj_invariant f k v (by rw [hf]; exact hm)

/-- Witness for C1 at a concrete input: cleaning
`(title => (string_contains => "bug", bogus => "y"))` keeps the whitelisted
operator and drops the hallucinated one, yielding a non-empty result. -/
theorem cleanFilter_sanitization_invariant_witness :
    (JObj.cons "title" (JValue.obj (JObj.cons "string_contains" (JValue.str "bug") JObj.nil))
      JObj.nil).entries ≠ [] :=
  (cleanFilter_sanitization_invariant
    (JObj.cons "title"
      (JValue.obj (JObj.cons "string_contains" (JValue.str "bug")
        (JObj.cons "bogus" (JValue.str "y") JObj.nil))) JObj.nil)
    (JObj.cons "title" (JValue.obj (JObj.cons "string_contains" (JValue.str "bug") JObj.nil))
      JObj.nil)
    (by simp [cleanFilter, cleanFilterObj, cleanOps, VALID_OPERATORS])).1

/--
**C7.** `cleanFilter` is idempotent: whenever `cleanFilter f` is defined
(returns `some r` rather than `undefined`), cleaning the result again
yields the same result unchanged: `cleanFilter r = some r`.
-/
theorem cleanFilter_idempotent (f r : JObj) (h : cleanFilter f = some r) :
    cleanFilter r = some r := by
  obtain ⟨hf, hne⟩ := cleanFilter_eq_some h
  have hfix : cleanFilterObj r = r := by rw [← hf, cleanFilterObj_idem]
  unfold cleanFilter
  rw [hfix]
  cases r with
  | nil => exact absurd rfl hne
  | cons a b c => rfl

/-- Witness for C7 at a concrete input: cleaning
`(state => (equals => "open"), junk => null)` gives
`(state => (equals => "open"))`, which cleans to itself. -/
theorem cleanFilter_idempotent_witness :
    cleanFilter
      (JObj.cons "state" (JValue.obj (JObj.cons "equals" (JValue.str "open") JObj.nil))
        JObj.nil) =
    some (JObj.cons "state" (JValue.obj (JObj.cons "equals" (JValue.str "open") JObj.nil))
      JObj.nil) :=
  cleanFilter_idempotent
    (JObj.cons "state" (JValue.obj (JObj.cons "equals" (JValue.str "open") JObj.nil))
      (JObj.cons "junk" JValue.null JObj.nil))
    (JObj.cons "state" (JValue.obj (JObj.cons "equals" (JValue.str "open") JObj.nil)) JObj.nil)
    (by simp [cleanFilter, cleanFilterObj, cleanOps, VALID_OPERATORS])


/-! ## Time-range validation (claims C4 and C2) -/

/-- `MS_PER_DAY` of `src/pylon-client.ts`. -/
def MS_PER_DAY : Int := 24 * 60 * 60 * 1000

/-- `MAX_TIME_RANGE_DAYS` of `src/pylon-client.ts`. -/
def MAX_TIME_RANGE_DAYS : Int := 30

/--
Models `diffDays.toFixed(1)` for `diffDays = ms / MS_PER_DAY`: the span in
days rendered with one fractional digit, rounding the exact millisecond
rational to the nearest tenth of a day (half up).  `new Date(...).getTime()`
values are integal milliseconds, so the quotient is exact up to this
rounding.
-/
def diffDaysFixed1 (ms : Int) : String :=
  let tenths : Int := (ms * 10 + MS_PER_DAY / 2) / MS_PER_DAY
  toString (tenths / 10) ++ "." ++ toString (tenths % 10)

/--
`validateTimeRange` of `src/pylon-client.ts`.  `new Date(string)` parsing is
a platform (ECMA-262) function, modelled by the `parse` parameter: `some t`
is a successful parse to `t` milliseconds since the epoch, `none` is an
invalid date (`NaN`).  The float comparison
`(end - start) / MS_PER_DAY > 30` is exact on integral millisecond spans,
so it is rendered as the integer comparison
`end - start > MAX_TIME_RANGE_DAYS * MS_PER_DAY`.
-/
def validateTimeRange (parse : String → Option Int) (startTime endTime : String) :
    Except String Unit :=
  match parse startTime with
  | none => .error ("Invalid start_time format: " ++ startTime ++
      ". Use RFC3339 format (e.g., 2024-01-01T00:00:00Z)")
  | some start =>
    match parse endTime with
    | none => .error ("Invalid end_time format: " ++ endTime ++
        ". Use RFC3339 format (e.g., 2024-01-31T00:00:00Z)")
    | some stop =>
      if start ≥ stop then .error "start_time must be before end_time"
      else if stop - start > MAX_TIME_RANGE_DAYS * MS_PER_DAY then
        .error ("Time range cannot exceed 30 days. Requested: " ++
          diffDaysFixed1 (stop - start) ++ " days. Try a shorter range like 28 days.")
      else .ok ()

/--
**C4.** `validateTimeRange start end` fails with an invalid-timestamp error
when either input fails to parse; for parseable `start < end` with span at
most 30 days it succeeds; for `start >= end` it fails with the
invalid-range error; and for a span over 30 days it fails with the
range-too-large error whose message reports the requested span in days.
-/
theorem validateTimeRange_spec (parse : String → Option Int) (s e : String) :
    (parse s = none → validateTimeRange parse s e =
      .error ("Invalid start_time format: " ++ s ++
        ". Use RFC3339 format (e.g., 2024-01-01T00:00:00Z)")) ∧
    (∀ sv, parse s = some sv → parse e = none → validateTimeRange parse s e =
      .error ("Invalid end_time format: " ++ e ++
        ". Use RFC3339 format (e.g., 2024-01-31T00:00:00Z)")) ∧
    (∀ sv ev, parse s = some sv → parse e = some ev → sv ≥ ev →
      validateTimeRange parse s e = .error "start_time must be before end_time") ∧
    (∀ sv ev, parse s = some sv → parse e = some ev → sv < ev →
      ev - sv ≤ MAX_TIME_RANGE_DAYS * MS_PER_DAY →
      validateTimeRange parse s e = .ok ()) ∧
    (∀ sv ev, parse s = some sv → parse e = some ev → sv < ev →
      ev - sv > MAX_TIME_RANGE_DAYS * MS_PER_DAY →
      validateTimeRange parse s e =
        .error ("Time range cannot exceed 30 days. Requested: " ++
          diffDaysFixed1 (ev - sv) ++ " days. Try a shorter range like 28 days.")) := by
  refine ⟨?_, ?_, ?_, ?_, ?_⟩
  · intro hn
    unfold validateTimeRange
    rw [hn]
  · intro sv hs hn
    unfold validateTimeRange
    simp only [hs, hn]
  · intro sv ev hs he hge
    unfold validateTimeRange
    simp only [hs, he]
    rw [if_pos hge]
  · intro sv ev hs he hlt hle
    unfold validateTimeRange
    simp only [hs, he]
    rw [if_neg (by omega), if_neg (by omega)]
  · intro sv ev hs he hlt hgt
    unfold validateTimeRange
    simp only [hs, he]
    rw [if_neg (by omega), if_pos hgt]

/-- Witness for C4: the spec scenario of a 38-day window
(2024-02-01 to 2024-03-10) is rejected as too large, reported as
"38.0 days", while a 10-day window succeeds. -/
theorem validateTimeRange_spec_witness :
    validateTimeRange
      (fun t => if t = "2024-02-01T00:00:00Z" then some 0
                else if t = "2024-03-10T00:00:00Z" then some (38 * 86400000)
                else if t = "2024-02-11T00:00:00Z" then some (10 * 86400000)
                else none)
      "2024-02-01T00:00:00Z" "2024-03-10T00:00:00Z" =
      .error ("Time range cannot exceed 30 days. Requested: 38.0 days. " ++
        "Try a shorter range like 28 days.") ∧
    validateTimeRange
      (fun t => if t = "2024-02-01T00:00:00Z" then some 0
                else if t = "2024-03-10T00:00:00Z" then some (38 * 86400000)
                else if t = "2024-02-11T00:00:00Z" then some (10 * 86400000)
                else none)
      "2024-02-01T00:00:00Z" "2024-02-11T00:00:00Z" = .ok () := by
  constructor
  · have h := (validateTimeRange_spec
      (fun t => if t = "2024-02-01T00:00:00Z" then some 0
                else if t = "2024-03-10T00:00:00Z" then some (38 * 86400000)
                else if t = "2024-02-11T00:00:00Z" then some (10 * 86400000)
                else none)
      "2024-02-01T00:00:00Z" "2024-03-10T00:00:00Z").2.2.2.2
      0 (38 * 86400000) (by simp) (by simp) (by omega)
      (by simp [MAX_TIME_RANGE_DAYS, MS_PER_DAY])
    rw [h]
    rfl
  · exact (validateTimeRange_spec
      (fun t => if t = "2024-02-01T00:00:00Z" then some 0
                else if t = "2024-03-10T00:00:00Z" then some (38 * 86400000)
                else if t = "2024-02-11T00:00:00Z" then some (10 * 86400000)
                else none)
      "2024-02-01T00:00:00Z" "2024-02-11T00:00:00Z").2.2.2.1
      0 (10 * 86400000) (by simp) (by simp) (by omega)
      (by simp [MAX_TIME_RANGE_DAYS, MS_PER_DAY])


/-- JavaScript truthiness of a filter value (`if (fieldObj[...])`). -/
def JValue.truthy : JValue → Bool
  | .str s => decide (s ≠ "")
  | .num n => decide (n ≠ 0)
  | .jbool b => b
  | .null => false
  | .undefined => false
  | .arr _ => true
  | .obj _ => true

/--
The `start`/`end` pair read off a `time_range` operand by
`validateFilterTimeRanges`: present only when the operand is an object
whose `start` and `end` properties are both truthy; per the declared type
`(start?: string, end?: string)` the bounds are strings.
-/
def timeRangeBounds (v : JValue) : Option (String × String) :=
  match v with
  | .obj tr =>
    match tr.getProp "start", tr.getProp "end" with
    | .str s, .str e => if s ≠ "" ∧ e ≠ "" then some (s, e) else none
    | _, _ => none
  | _ => none

/--
`validateFilterTimeRanges` of `src/pylon-client.ts`: walks every field of
the filter whose value is a non-array, non-null object and, when that
field carries a truthy `time_range` operand with both `start` and `end`
present, applies `validateTimeRange` to the pair; a failure is rethrown
wrapped with the offending field name.
-/
def validateFilterTimeRanges (parse : String → Option Int) : JObj → Except String Unit
  | .nil => .ok ()
  | .cons fieldName fieldValue rest =>
    match fieldValue with
    | .obj fieldObj =>
      if (fieldObj.getProp "time_range").truthy then
        match timeRangeBounds (fieldObj.getProp "time_range") with
        | some (s, e) =>
          match validateTimeRange parse s e with
          | .error msg => .error ("Invalid time_range for " ++ fieldName ++ ": " ++ msg)
          | .ok _ => validateFilterTimeRanges parse rest
        | none => validateFilterTimeRanges parse rest
      else validateFilterTimeRanges parse rest
    | _ => validateFilterTimeRanges parse rest

/--
The part of `searchIssues` (`src/pylon-client.ts`) that runs before any
network request: it validates the filter's time ranges and, only on
success, produces the request's filter payload `cleanFilter(f) ?? empty-object`;
an `error` result is the exception raised before the HTTP call.
-/
def searchIssuesFilterPayload (parse : String → Option Int) (filter : JObj) :
    Except String JObj :=
  match validateFilterTimeRanges parse filter with
  | .error msg => .error msg
  | .ok _ =>
    .ok (match cleanFilter filter with
         | some r => r
         | none => JObj.nil)

/--
The part of `searchAccounts` (`src/pylon-client.ts`) that runs before the
network request: it only cleans the filter — there is no call to
`validateFilterTimeRanges` — and always proceeds to the HTTP call with
this payload.
-/
def searchAccountsFilterPayload (filter : JObj) : JObj :=
  match cleanFilter filter with
  | some r => r
  | none => JObj.nil

/--
The part of `searchContacts` (`src/pylon-client.ts`) that runs before the
network request: identical to `searchAccounts` — no time-range
validation.
-/
def searchContactsFilterPayload (filter : JObj) : JObj :=
  match cleanFilter filter with
  | some r => r
  | none => JObj.nil


/-! ## Unfolding lemmas for validateFilterTimeRanges -/

lemma vftr_nil (parse : String → Option Int) :
    validateFilterTimeRanges parse .nil = .ok () := by
  rw [validateFilterTimeRanges]

lemma vftr_cons_obj (parse : String → Option Int) (k : String) (fo : JObj) (rest : JObj) :
    validateFilterTimeRanges parse (.cons k (.obj fo) rest) =
      if (fo.getProp "time_range").truthy then
        match timeRangeBounds (fo.getProp "time_range") with
        | some (s, e) =>
          match validateTimeRange parse s e with
          | .error msg => .error ("Invalid time_range for " ++ k ++ ": " ++ msg)
          | .ok _ => validateFilterTimeRanges parse rest
        | none => validateFilterTimeRanges parse rest
      else validateFilterTimeRanges parse rest := by
  rw [validateFilterTimeRanges]

lemma vftr_cons_str (parse : String → Option Int) (k v : String) (rest : JObj) :
    validateFilterTimeRanges parse (.cons k (.str v) rest) =
      validateFilterTimeRanges parse rest := by
  rw [validateFilterTimeRanges] <;> simp

lemma vftr_cons_num (parse : String → Option Int) (k : String) (n : Int) (rest : JObj) :
    validateFilterTimeRanges parse (.cons k (.num n) rest) =
      validateFilterTimeRanges parse rest := by
  rw [validateFilterTimeRanges] <;> simp

lemma vftr_cons_jbool (parse : String → Option Int) (k : String) (b : Bool) (rest : JObj) :
    validateFilterTimeRanges parse (.cons k (.jbool b) rest) =
      validateFilterTimeRanges parse rest := by
  rw [validateFilterTimeRanges] <;> simp

lemma vftr_cons_null (parse : String → Option Int) (k : String) (rest : JObj) :
    validateFilterTimeRanges parse (.cons k .null rest) =
      validateFilterTimeRanges parse rest := by
  rw [validateFilterTimeRanges] <;> simp

lemma vftr_cons_undef (parse : String → Option Int) (k : String) (rest : JObj) :
    validateFilterTimeRanges parse (.cons k .undefined rest) =
      validateFilterTimeRanges parse rest := by
  rw [validateFilterTimeRanges] <;> simp

lemma vftr_cons_arr (parse : String → Option Int) (k : String) (xs : List JValue)
    (rest : JObj) :
    validateFilterTimeRanges parse (.cons k (.arr xs) rest) =
      validateFilterTimeRanges parse rest := by
  rw [validateFilterTimeRanges] <;> simp

/-- A value with extractable time-range bounds is an object, hence truthy. -/
lemma timeRangeBounds_truthy {v : JValue} {p : String × String}
    (h : timeRangeBounds v = some p) : v.truthy = true := by
  cases v <;> simp [timeRangeBounds, JValue.truthy] at h ⊢

/--
If some field of the filter carries a time-range pair that fails
validation, `validateFilterTimeRanges` fails, and its error wraps an
offending field's name around the underlying failure message.
-/
lemma validateFilterTimeRanges_error (parse : String → Option Int) (f : JObj)
    (h : ∃ k fieldObj s e m, (k, JValue.obj fieldObj) ∈ f.entries ∧
          timeRangeBounds (fieldObj.getProp "time_range") = some (s, e) ∧
          validateTimeRange parse s e = .error m) :
    ∃ k s e m,
      (∃ fieldObj, (k, JValue.obj fieldObj) ∈ f.entries ∧
        timeRangeBounds (fieldObj.getProp "time_range") = some (s, e)) ∧
      validateTimeRange parse s e = .error m ∧
      validateFilterTimeRanges parse f =
        .error ("Invalid time_range for " ++ k ++ ": " ++ m) := by
  induction f using JObj.entries.induct with
  | case1 =>
    obtain ⟨k, fo, s, e, m, hmem, _, _⟩ := h
    simp [JObj.entries] at hmem
  | case2 k' v' rest ih =>
    cases v' with
    | obj fieldObj =>
      rcases hb : timeRangeBounds (fieldObj.getProp "time_range") with _ | ⟨s0, e0⟩
      · -- no extractable bounds on the head: the witness is in the tail
        have htail : ∃ k fieldObj s e m, (k, JValue.obj fieldObj) ∈ rest.entries ∧
            timeRangeBounds (fieldObj.getProp "time_range") = some (s, e) ∧
            validateTimeRange parse s e = .error m := by
          obtain ⟨k, fo, s, e, m, hmem, hbo, hv⟩ := h
          rw [JObj.entries] at hmem
          rcases List.mem_cons.mp hmem with heq | hmem'
          · cases heq
            rw [hb] at hbo
            cases hbo
          · exact ⟨k, fo, s, e, m, hmem', hbo, hv⟩
        obtain ⟨k, s, e, m, ⟨fo, hmem, hbo⟩, hv, heq⟩ := ih htail
        refine ⟨k, s, e, m, ⟨fo, by rw [JObj.entries]; exact List.mem_cons_of_mem _ hmem,
          hbo⟩, hv, ?_⟩
        rw [vftr_cons_obj, hb]
        by_cases ht : (fieldObj.getProp "time_range").truthy = true
        · rw [if_pos ht]
          simp only
          exact heq
        · rw [if_neg ht]
          exact heq
      · -- head has bounds; branch on its validation result
        have ht := timeRangeBounds_truthy hb
        rcases hv0 : validateTimeRange parse s0 e0 with m0 | u
        · refine ⟨k', s0, e0, m0, ⟨fieldObj, by rw [JObj.entries]; exact List.mem_cons_self _ _,
            hb⟩, hv0, ?_⟩
          rw [vftr_cons_obj, if_pos ht, hb]
          simp only [hv0]
        · -- head validates fine: the witness is in the tail
          have htail : ∃ k fieldObj s e m, (k, JValue.obj fieldObj) ∈ rest.entries ∧
              timeRangeBounds (fieldObj.getProp "time_range") = some (s, e) ∧
              validateTimeRange parse s e = .error m := by
            obtain ⟨k, fo, s, e, m, hmem, hbo, hv⟩ := h
            rw [JObj.entries] at hmem
            rcases List.mem_cons.mp hmem with heq | hmem'
            · cases heq
              rw [hb] at hbo
              cases hbo
              rw [hv0] at hv
              cases hv
            · exact ⟨k, fo, s, e, m, hmem', hbo, hv⟩
          obtain ⟨k, s, e, m, ⟨fo, hmem, hbo⟩, hv, heq⟩ := ih htail
          refine ⟨k, s, e, m, ⟨fo, by rw [JObj.entries]; exact List.mem_cons_of_mem _ hmem,
            hbo⟩, hv, ?_⟩
          rw [vftr_cons_obj, if_pos ht, hb]
          simp only [hv0]
          exact heq
    | str v =>
      obtain ⟨k, s, e, m, hme, hv, heq⟩ := ih (by
        obtain ⟨k, fo, s, e, m, hmem, hbo, hv⟩ := h
        rw [JObj.entries] at hmem
        rcases List.mem_cons.mp hmem with heq | hmem'
        · cases heq
        · exact ⟨k, fo, s, e, m, hmem', hbo, hv⟩)
      obtain ⟨fo, hmem, hbo⟩ := hme
      exact ⟨k, s, e, m, ⟨fo, by rw [JObj.entries]; exact List.mem_cons_of_mem _ hmem, hbo⟩,
        hv, by rw [vftr_cons_str]; exact heq⟩
    | num n =>
      obtain ⟨k, s, e, m, hme, hv, heq⟩ := ih (by
        obtain ⟨k, fo, s, e, m, hmem, hbo, hv⟩ := h
        rw [JObj.entries] at hmem
        rcases List.mem_cons.mp hmem with heq | hmem'
        · cases heq
        · exact ⟨k, fo, s, e, m, hmem', hbo, hv⟩)
      obtain ⟨fo, hmem, hbo⟩ := hme
      exact ⟨k, s, e, m, ⟨fo, by rw [JObj.entries]; exact List.mem_cons_of_mem _ hmem, hbo⟩,
        hv, by rw [vftr_cons_num]; exact heq⟩
    | jbool b =>
      obtain ⟨k, s, e, m, hme, hv, heq⟩ := ih (by
        obtain ⟨k, fo, s, e, m, hmem, hbo, hv⟩ := h
        rw [JObj.entries] at hmem
        rcases List.mem_cons.mp hmem with heq | hmem'
        · cases heq
        · exact ⟨k, fo, s, e, m, hmem', hbo, hv⟩)
      obtain ⟨fo, hmem, hbo⟩ := hme
      exact ⟨k, s, e, m, ⟨fo, by rw [JObj.entries]; exact List.mem_cons_of_mem _ hmem, hbo⟩,
        hv, by rw [vftr_cons_jbool]; exact heq⟩
    | null =>
      obtain ⟨k, s, e, m, hme, hv, heq⟩ := ih (by
        obtain ⟨k, fo, s, e, m, hmem, hbo, hv⟩ := h
        rw [JObj.entries] at hmem
        rcases List.mem_cons.mp hmem with heq | hmem'
        · cases heq
        · exact ⟨k, fo, s, e, m, hmem', hbo, hv⟩)
      obtain ⟨fo, hmem, hbo⟩ := hme
      exact ⟨k, s, e, m, ⟨fo, by rw [JObj.entries]; exact List.mem_cons_of_mem _ hmem, hbo⟩,
        hv, by rw [vftr_cons_null]; exact heq⟩
    | undefined =>
      obtain ⟨k, s, e, m, hme, hv, heq⟩ := ih (by
        obtain ⟨k, fo, s, e, m, hmem, hbo, hv⟩ := h
        rw [JObj.entries] at hmem
        rcases List.mem_cons.mp hmem with heq | hmem'
        · cases heq
        · exact ⟨k, fo, s, e, m, hmem', hbo, hv⟩)
      obtain ⟨fo, hmem, hbo⟩ := hme
      exact ⟨k, s, e, m, ⟨fo, by rw [JObj.entries]; exact List.mem_cons_of_mem _ hmem, hbo⟩,
        hv, by rw [vftr_cons_undef]; exact heq⟩
    | arr xs =>
      obtain ⟨k, s, e, m, hme, hv, heq⟩ := ih (by
        obtain ⟨k, fo, s, e, m, hmem, hbo, hv⟩ := h
        rw [JObj.entries] at hmem
        rcases List.mem_cons.mp hmem with heq | hmem'
        · cases heq
        · exact ⟨k, fo, s, e, m, hmem', hbo, hv⟩)
      obtain ⟨fo, hmem, hbo⟩ := hme
      exact ⟨k, s, e, m, ⟨fo, by rw [JObj.entries]; exact List.mem_cons_of_mem _ hmem, hbo⟩,
        hv, by rw [vftr_cons_arr]; exact heq⟩


/--
**C2 (amended).** `searchIssues` applies time-range validation to the
caller's filter before any network request: whenever some field's value
is a non-array object carrying a `time_range` operator with both `start`
and `end` present and that pair fails validation, the pre-request
computation raises an error that wraps the underlying failure message
with the offending field name, and no request payload is ever produced.
(`searchAccounts` and `searchContacts` perform no such validation; see
the counterexample.)
-/
theorem searchIssues_time_validation (parse : String → Option Int) (f : JObj)
    (h : ∃ k fieldObj s e m, (k, JValue.obj fieldObj) ∈ f.entries ∧
          timeRangeBounds (fieldObj.getProp "time_range") = some (s, e) ∧
          validateTimeRange parse s e = .error m) :
    ∃ k s e m,
      (∃ fieldObj, (k, JValue.obj fieldObj) ∈ f.entries ∧
        timeRangeBounds (fieldObj.getProp "time_range") = some (s, e)) ∧
      validateTimeRange parse s e = .error m ∧
      searchIssuesFilterPayload parse f =
        .error ("Invalid time_range for " ++ k ++ ": " ++ m) := by
  obtain ⟨k, s, e, m, hme, hv, heq⟩ := validateFilterTimeRanges_error parse f h
  refine ⟨k, s, e, m, hme, hv, ?_⟩
  unfold searchIssuesFilterPayload
  rw [heq]

/-- Witness for C2 (amended) at a concrete input: a filter on
`created_at` with a 121-day `time_range` makes `searchIssues` raise the
wrapped validation error before the request. -/
theorem searchIssues_time_validation_witness :
    ∃ k s e m,
      (∃ fieldObj, (k, JValue.obj fieldObj) ∈
          (JObj.cons "created_at"
            (JValue.obj (JObj.cons "time_range"
              (JValue.obj (JObj.cons "start" (JValue.str "2024-01-01T00:00:00Z")
                (JObj.cons "end" (JValue.str "2024-05-01T00:00:00Z") JObj.nil))) JObj.nil))
            JObj.nil).entries ∧
        timeRangeBounds (fieldObj.getProp "time_range") = some (s, e)) ∧
      validateTimeRange
        (fun t => if t = "2024-01-01T00:00:00Z" then some 0
                  else if t = "2024-05-01T00:00:00Z" then some (121 * 86400000) else none)
        s e = .error m ∧
      searchIssuesFilterPayload
        (fun t => if t = "2024-01-01T00:00:00Z" then some 0
                  else if t = "2024-05-01T00:00:00Z" then some (121 * 86400000) else none)
        (JObj.cons "created_at"
          (JValue.obj (JObj.cons "time_range"
            (JValue.obj (JObj.cons "start" (JValue.str "2024-01-01T00:00:00Z")
              (JObj.cons "end" (JValue.str "2024-05-01T00:00:00Z") JObj.nil))) JObj.nil))
          JObj.nil) =
        .error ("Invalid time_range for " ++ k ++ ": " ++ m) :=
  searchIssues_time_validation
    (fun t => if t = "2024-01-01T00:00:00Z" then some 0
              else if t = "2024-05-01T00:00:00Z" then some (121 * 86400000) else none)
    (JObj.cons "created_at"
      (JValue.obj (JObj.cons "time_range"
        (JValue.obj (JObj.cons "start" (JValue.str "2024-01-01T00:00:00Z")
          (JObj.cons "end" (JValue.str "2024-05-01T00:00:00Z") JObj.nil))) JObj.nil))
      JObj.nil)
    ⟨"created_at",
      JObj.cons "time_range"
        (JValue.obj (JObj.cons "start" (JValue.str "2024-01-01T00:00:00Z")
          (JObj.cons "end" (JValue.str "2024-05-01T00:00:00Z") JObj.nil))) JObj.nil,
      "2024-01-01T00:00:00Z", "2024-05-01T00:00:00Z",
      "Time range cannot exceed 30 days. Requested: 121.0 days. " ++
        "Try a shorter range like 28 days.",
      by simp [JObj.entries], by rfl, by rfl⟩

/--
Counterexample to **C2** as stated: `searchAccounts` (and
`searchContacts`) never apply time-range validation — on the same filter
with a 121-day `time_range`, for which `searchIssues` fails fast,
`searchAccounts` proceeds to the HTTP request, sending the invalid range
through unchanged.
-/
theorem searchAccounts_no_time_validation_counterexample :
    searchIssuesFilterPayload
      (fun t => if t = "2024-01-01T00:00:00Z" then some 0
                else if t = "2024-05-01T00:00:00Z" then some (121 * 86400000) else none)
      (JObj.cons "created_at"
        (JValue.obj (JObj.cons "time_range"
          (JValue.obj (JObj.cons "start" (JValue.str "2024-01-01T00:00:00Z")
            (JObj.cons "end" (JValue.str "2024-05-01T00:00:00Z") JObj.nil))) JObj.nil))
        JObj.nil) =
      .error ("Invalid time_range for created_at: Time range cannot exceed 30 days. " ++
        "Requested: 121.0 days. Try a shorter range like 28 days.") ∧
    searchAccountsFilterPayload
      (JObj.cons "created_at"
        (JValue.obj (JObj.cons "time_range"
          (JValue.obj (JObj.cons "start" (JValue.str "2024-01-01T00:00:00Z")
            (JObj.cons "end" (JValue.str "2024-05-01T00:00:00Z") JObj.nil))) JObj.nil))
        JObj.nil) =
      JObj.cons "created_at"
        (JValue.obj (JObj.cons "time_range"
          (JValue.obj (JObj.cons "start" (JValue.str "2024-01-01T00:00:00Z")
            (JObj.cons "end" (JValue.str "2024-05-01T00:00:00Z") JObj.nil))) JObj.nil))
        JObj.nil ∧
    searchContactsFilterPayload
      (JObj.cons "created_at"
        (JValue.obj (JObj.cons "time_range"
          (JValue.obj (JObj.cons "start" (JValue.str "2024-01-01T00:00:00Z")
            (JObj.cons "end" (JValue.str "2024-05-01T00:00:00Z") JObj.nil))) JObj.nil))
        JObj.nil) =
      JObj.cons "created_at"
        (JValue.obj (JObj.cons "time_range"
          (JValue.obj (JObj.cons "start" (JValue.str "2024-01-01T00:00:00Z")
            (JObj.cons "end" (JValue.str "2024-05-01T00:00:00Z") JObj.nil))) JObj.nil))
        JObj.nil := by
  refine ⟨by rfl, ?_, ?_⟩
  · simp [searchAccountsFilterPayload, cleanFilter, cleanFilterObj, cleanOps, VALID_OPERATORS]
  · simp [searchContactsFilterPayload, cleanFilter, cleanFilterObj, cleanOps, VALID_OPERATORS]


/-! ## HTML stripping and truncation (claims C6, C9, C10) -/

/-- The whitespace class matched by the regex `\\s` on the texts handled
here (ASCII whitespace). -/
def isJsWs (c : Char) : Bool :=
  c = ' ' || c = '\t' || c = '\n' || c = '\r' || c = '\x0b' || c = '\x0c'

/--
The global replacement `html.replace(<tag regex>, ' ')` removing HTML tag
markup: at each `<` that is followed by some `>`, the match runs up to
the first such `>` and is replaced by one space; a `<` with no later `>`
never matches and is copied.
-/
def stripTags : List Char → List Char
  | [] => []
  | c :: rest =>
    if c = '<' ∧ rest.contains '>' = true then
      ' ' :: stripTags ((rest.dropWhile (fun x => x ≠ '>')).tail)
    else
      c :: stripTags rest
termination_by l => l.length
decreasing_by
  · simp only [List.length_cons]
    have h1 := (List.dropWhile_sublist (l := rest) (fun x => x ≠ '>')).length_le
    have h2 : ((rest.dropWhile (fun x => x ≠ '>')).tail).length ≤
        (rest.dropWhile (fun x => x ≠ '>')).length := by
      simp [List.length_tail]
    omega
  · simp

/-- The global replacement `.replace(<whitespace-run regex>, ' ')`
collapsing every maximal run of whitespace to a single space. -/
def collapseWs : List Char → List Char
  | [] => []
  | c :: rest =>
    if isJsWs c then ' ' :: collapseWs (rest.dropWhile isJsWs)
    else c :: collapseWs rest
termination_by l => l.length
decreasing_by
  · simp only [List.length_cons]
    have h1 := (List.dropWhile_sublist (l := rest) isJsWs).length_le
    omega
  · simp

/-- `String.prototype.trim()`: drop leading and trailing whitespace. -/
def jsTrim (l : List Char) : List Char :=
  ((l.dropWhile isJsWs).reverse.dropWhile isJsWs).reverse

/-- `String.prototype.slice(0, e)`: a negative end counts from the end of
the string; the prefix of that (clamped) length. -/
def jsSliceTo (l : List Char) (e : Int) : List Char :=
  l.take (if e < 0 then ((l.length : Int) + e).toNat else e.toNat)

/-- The strip-collapse-trim pipeline shared by `stripHtmlAndTruncate`
(`src/schemas.ts`) and the `pylon_get_issue_body` handler
(`src/index.ts`). -/
def processedText (html : List Char) : List Char :=
  jsTrim (collapseWs (stripTags html))

/-- The ellipsis marker appended on truncation. -/
def ellipsis : List Char := ['.', '.', '.']

/-- `MAX_BODY_LENGTH` of `src/schemas.ts`. -/
def MAX_BODY_LENGTH : Int := 500

/--
`stripHtmlAndTruncate` of `src/schemas.ts` on its declared domain
`string | null | undefined`: a falsy argument (`null`, `undefined`, or
the empty string) yields the empty string; otherwise the text is
stripped of tags, whitespace-collapsed and trimmed, and truncated to
`maxLength - 3` characters plus the ellipsis marker when it exceeds
`maxLength`.
-/
def stripHtmlAndTruncate (html : JValue) (maxLength : Int) : List Char :=
  match html with
  | .str s =>
    if s.data = [] then []
    else
      let text := processedText s.data
      if (text.length : Int) ≤ maxLength then text
      else jsSliceTo text (maxLength - 3) ++ ellipsis
  | _ => []

/-! ## Response projection (claims C3, C5, C10) -/

/-- Optional chaining `x?.id`: the `id` property when `x` is an object,
`undefined` otherwise (including `null`, `undefined`, and non-object
values, whose property access yields `undefined`). -/
def jsGetId (v : JValue) : JValue :=
  match v with
  | .obj o => o.getProp "id"
  | _ => .undefined

/-- Nullish coalescing `a ?? b`. -/
def jsCoalesce (a b : JValue) : JValue :=
  match a with
  | .null => b
  | .undefined => b
  | v => v

/-- `extractAccountId` of `src/schemas.ts`: the flat `account_id` when it
is a string, otherwise `account?.id` (with no `?? null`). -/
def extractAccountId (issue : JObj) : JValue :=
  match issue.getProp "account_id" with
  | .str s => .str s
  | _ => jsGetId (issue.getProp "account")

/-- `extractAssigneeId` of `src/schemas.ts`: the flat `assignee_id` when
it is a string, otherwise `assignee?.id ?? null`. -/
def extractAssigneeId (issue : JObj) : JValue :=
  match issue.getProp "assignee_id" with
  | .str s => .str s
  | _ => jsCoalesce (jsGetId (issue.getProp "assignee")) .null

/-- `extractRequesterId` of `src/schemas.ts`. -/
def extractRequesterId (issue : JObj) : JValue :=
  match issue.getProp "requester_id" with
  | .str s => .str s
  | _ => jsCoalesce (jsGetId (issue.getProp "requester")) .null

/-- `extractTeamId` of `src/schemas.ts`. -/
def extractTeamId (issue : JObj) : JValue :=
  match issue.getProp "team_id" with
  | .str s => .str s
  | _ => jsCoalesce (jsGetId (issue.getProp "team")) .null

/-- Concatenation of two objects, modelling an object literal that
spreads the first and then lists the second's (distinct) keys. -/
def JObj.append : JObj → JObj → JObj
  | .nil, b => b
  | .cons k v r, b => .cons k v (r.append b)

/-- `toIssueMinimal` of `src/schemas.ts`: the minimal issue view, fields
in literal order. -/
def toIssueMinimal (raw : JObj) : JObj :=
  .cons "id" (raw.getProp "id") (
  .cons "number" (raw.getProp "number") (
  .cons "title" (raw.getProp "title") (
  .cons "state" (raw.getProp "state") (
  .cons "link" (raw.getProp "link") (
  .cons "created_at" (raw.getProp "created_at") (
  .cons "assignee_id" (extractAssigneeId raw) (
  .cons "account_id" (extractAccountId raw) (
  .cons "tags" (raw.getProp "tags") .nil))))))))

/-- `toIssueStandard` of `src/schemas.ts`: the minimal view spread first,
followed by the additional descriptive fields (no body). -/
def toIssueStandard (raw : JObj) : JObj :=
  (toIssueMinimal raw).append (
  .cons "requester_id" (extractRequesterId raw) (
  .cons "team_id" (extractTeamId raw) (
  .cons "resolution_time" (raw.getProp "resolution_time") (
  .cons "latest_message_time" (raw.getProp "latest_message_time") (
  .cons "first_response_time" (raw.getProp "first_response_time") (
  .cons "customer_portal_visible" (raw.getProp "customer_portal_visible") (
  .cons "source" (raw.getProp "source") (
  .cons "type" (raw.getProp "type") .nil))))))))

/-- `toIssueFull` of `src/schemas.ts`: the standard view spread first,
plus the stripped-and-truncated `body_html` (cap `MAX_BODY_LENGTH`). -/
def toIssueFull (raw : JObj) : JObj :=
  (toIssueStandard raw).append (
  .cons "body_html" (.str ⟨stripHtmlAndTruncate (raw.getProp "body_html") MAX_BODY_LENGTH⟩)
    .nil)

/-- `toAccountMinimal` of `src/schemas.ts`: note `owner_id` is
`owner?.id ?? raw.owner_id` — the nested id takes precedence. -/
def toAccountMinimal (raw : JObj) : JObj :=
  .cons "id" (raw.getProp "id") (
  .cons "name" (raw.getProp "name") (
  .cons "primary_domain" (raw.getProp "primary_domain") (
  .cons "owner_id" (jsCoalesce (jsGetId (raw.getProp "owner")) (raw.getProp "owner_id")) (
  .cons "tags" (raw.getProp "tags") .nil))))

/-- `toContactMinimal` of `src/schemas.ts`: note `account_id` is
`account?.id ?? raw.account_id` — the nested id takes precedence. -/
def toContactMinimal (raw : JObj) : JObj :=
  .cons "id" (raw.getProp "id") (
  .cons "name" (raw.getProp "name") (
  .cons "email" (raw.getProp "email") (
  .cons "account_id" (jsCoalesce (jsGetId (raw.getProp "account")) (raw.getProp "account_id")) (
  .cons "portal_role" (raw.getProp "portal_role") .nil))))


/-! ## Tag markup absence (claim C6) -/

/-- Whether a character list still contains tag markup: some `<` with a
later `>` (the shape the tag-stripping regex matches). -/
def hasTagMarkup : List Char → Bool
  | [] => false
  | c :: rest => (decide (c = '<') && rest.contains '>') || hasTagMarkup rest

lemma contains_false_iff (l : List Char) (c : Char) : l.contains c = false ↔ c ∉ l := by
  simp

lemma hasTagMarkup_nil : hasTagMarkup [] = false := rfl

lemma hasTagMarkup_cons (c : Char) (l : List Char) :
    hasTagMarkup (c :: l) = ((decide (c = '<') && l.contains '>') || hasTagMarkup l) := rfl

/-- No tag markup in a suffix of a markup-free list. -/
lemma hasTagMarkup_of_append_right {a b : List Char}
    (h : hasTagMarkup (a ++ b) = false) : hasTagMarkup b = false := by
  induction a with
  | nil => exact h
  | cons x a' ih =>
    rw [List.cons_append, hasTagMarkup_cons, Bool.or_eq_false_iff] at h
    exact ih h.2

/-- No tag markup in a prefix of a markup-free list. -/
lemma hasTagMarkup_of_append_left {a b : List Char}
    (h : hasTagMarkup (a ++ b) = false) : hasTagMarkup a = false := by
  induction a with
  | nil => rfl
  | cons x a' ih =>
    rw [List.cons_append, hasTagMarkup_cons, Bool.or_eq_false_iff, Bool.and_eq_false_iff] at h
    rw [hasTagMarkup_cons, Bool.or_eq_false_iff, Bool.and_eq_false_iff]
    refine ⟨?_, ih h.2⟩
    rcases h.1 with h1 | h1
    · exact Or.inl h1
    · refine Or.inr ?_
      rw [contains_false_iff] at h1 ⊢
      intro hc
      exact h1 (List.mem_append_left b hc)

/-- Tag markup is inherited along sublists. -/
lemma hasTagMarkup_sublist {a b : List Char} (hs : a.Sublist b)
    (h : hasTagMarkup b = false) : hasTagMarkup a = false := by
  induction hs with
  | slnil => rfl
  | cons x _ ih =>
    rw [hasTagMarkup_cons, Bool.or_eq_false_iff] at h
    exact ih h.2
  | cons₂ x hs' ih =>
    rw [hasTagMarkup_cons, Bool.or_eq_false_iff, Bool.and_eq_false_iff] at h
    rw [hasTagMarkup_cons, Bool.or_eq_false_iff, Bool.and_eq_false_iff]
    refine ⟨?_, ih h.2⟩
    rcases h.1 with h1 | h1
    · exact Or.inl h1
    · refine Or.inr ?_
      rw [contains_false_iff] at h1 ⊢
      intro hc
      exact h1 (hs'.subset hc)

/-- Appending a `>`-free, markup-free tail preserves markup-freeness. -/
lemma hasTagMarkup_append {a b : List Char} (ha : hasTagMarkup a = false)
    (hb : hasTagMarkup b = false) (hbg : b.contains '>' = false) :
    hasTagMarkup (a ++ b) = false := by
  induction a with
  | nil => exact hb
  | cons x a' ih =>
    rw [hasTagMarkup_cons, Bool.or_eq_false_iff, Bool.and_eq_false_iff] at ha
    rw [List.cons_append, hasTagMarkup_cons, Bool.or_eq_false_iff, Bool.and_eq_false_iff]
    refine ⟨?_, ih ha.2⟩
    rcases ha.1 with h1 | h1
    · exact Or.inl h1
    · refine Or.inr ?_
      rw [contains_false_iff] at h1 hbg ⊢
      intro hc
      rcases List.mem_append.mp hc with hc' | hc'
      · exact h1 hc'
      · exact hbg hc'

/-- Stripping is the identity on inputs with no `>` at all. -/
lemma stripTags_of_no_gt : ∀ l : List Char, l.contains '>' = false → stripTags l = l := by
  intro l
  induction l using stripTags.induct with
  | case1 => intro _; rw [stripTags]
  | case2 c rest hcond ih =>
    intro h
    exfalso
    rw [List.contains_cons, Bool.or_eq_false_iff] at h
    rw [hcond.2] at h
    exact Bool.false_ne_true h.2.symm
  | case3 c rest hcond ih =>
    intro h
    rw [List.contains_cons, Bool.or_eq_false_iff] at h
    rw [stripTags, if_neg hcond, ih h.2]

/-- The output of tag stripping contains no tag markup. -/
lemma stripTags_no_markup : ∀ l : List Char, hasTagMarkup (stripTags l) = false := by
  intro l
  induction l using stripTags.induct with
  | case1 => rw [stripTags]; rfl
  | case2 c rest hcond ih =>
    rw [stripTags, if_pos hcond, hasTagMarkup_cons]
    simp only [ih, Bool.or_false]
    rfl
  | case3 c rest hcond ih =>
    rw [stripTags, if_neg hcond, hasTagMarkup_cons]
    simp only [ih, Bool.or_false]
    by_cases hc : c = '<'
    · have hg : rest.contains '>' = false := by
        by_contra hgg
        exact hcond ⟨hc, by revert hgg; cases rest.contains '>' <;> simp⟩
      rw [stripTags_of_no_gt rest hg, hc, hg]
      simp
    · simp [hc]

/-- Whitespace collapsing introduces no `>`. -/
lemma collapseWs_contains_gt : ∀ l : List Char, l.contains '>' = false →
    (collapseWs l).contains '>' = false := by
  intro l
  induction l using collapseWs.induct with
  | case1 => intro _; rw [collapseWs]; rfl
  | case2 c rest hws ih =>
    intro h
    rw [List.contains_cons, Bool.or_eq_false_iff] at h
    rw [collapseWs, if_pos hws, List.contains_cons, Bool.or_eq_false_iff]
    refine ⟨by decide, ?_⟩
    refine ih ?_
    have h2 := h.2
    rw [contains_false_iff] at h2 ⊢
    intro hc
    exact h2 ((List.dropWhile_sublist isJsWs).subset hc)
  | case3 c rest hws ih =>
    intro h
    rw [List.contains_cons, Bool.or_eq_false_iff] at h
    rw [collapseWs, if_neg hws, List.contains_cons, Bool.or_eq_false_iff]
    exact ⟨h.1, ih h.2⟩

/-- Whitespace collapsing preserves markup-freeness. -/
lemma collapseWs_no_markup : ∀ l : List Char, hasTagMarkup l = false →
    hasTagMarkup (collapseWs l) = false := by
  intro l
  induction l using collapseWs.induct with
  | case1 => intro _; rw [collapseWs]; rfl
  | case2 c rest hws ih =>
    intro h
    rw [hasTagMarkup_cons, Bool.or_eq_false_iff] at h
    rw [collapseWs, if_pos hws, hasTagMarkup_cons]
    have hdrop : hasTagMarkup (rest.dropWhile isJsWs) = false := by
      have hsplit : rest.takeWhile isJsWs ++ rest.dropWhile isJsWs = rest :=
        List.takeWhile_append_dropWhile ..
      exact hasTagMarkup_of_append_right (a := rest.takeWhile isJsWs) (hsplit.symm ▸ h.2)
    simp only [ih hdrop, Bool.or_false]
    rfl
  | case3 c rest hws ih =>
    intro h
    rw [hasTagMarkup_cons, Bool.or_eq_false_iff, Bool.and_eq_false_iff] at h
    rw [collapseWs, if_neg hws, hasTagMarkup_cons]
    simp only [ih h.2, Bool.or_false]
    rcases h.1 with h1 | h1
    · simp [h1]
    · rw [Bool.and_eq_false_iff]
      refine Or.inr ?_
      exact collapseWs_contains_gt rest h1
  
/-- `jsTrim` yields a sublist. -/
lemma jsTrim_sublist (l : List Char) : (jsTrim l).Sublist l := by
  unfold jsTrim
  have h1 : (l.dropWhile isJsWs).Sublist l := List.dropWhile_sublist isJsWs
  have h2 : (((l.dropWhile isJsWs).reverse.dropWhile isJsWs)).Sublist
      (l.dropWhile isJsWs).reverse := List.dropWhile_sublist isJsWs
  have h3 := h2.reverse
  rw [List.reverse_reverse] at h3
  exact h3.trans h1

/-- The whole strip-collapse-trim pipeline yields markup-free text. -/
lemma processedText_no_markup (l : List Char) :
    hasTagMarkup (processedText l) = false := by
  unfold processedText
  exact hasTagMarkup_sublist (jsTrim_sublist _)
    (collapseWs_no_markup _ (stripTags_no_markup l))


lemma processedText_nil : processedText [] = [] := by
  unfold processedText
  rw [stripTags, collapseWs]
  rfl

/--
**C6.** For every input string and every bound `n ≥ 3` (covering the
caller bounds 500, 2000, 10000): the result of `stripHtmlAndTruncate` has
length at most `n`; when the stripped-collapsed-trimmed text fits in `n`
it is returned as is, and when it exceeds `n` the result is its first
`n - 3` characters followed by the ellipsis marker; and the output never
contains tag markup (no `<` with a later `>`).
-/
theorem stripHtmlAndTruncate_spec (s : String) (n : Int) (hn : 3 ≤ n) :
    ((stripHtmlAndTruncate (.str s) n).length : Int) ≤ n ∧
    (((processedText s.data).length : Int) ≤ n → s.data ≠ [] →
      stripHtmlAndTruncate (.str s) n = processedText s.data) ∧
    (((processedText s.data).length : Int) > n →
      stripHtmlAndTruncate (.str s) n =
        (processedText s.data).take (n - 3).toNat ++ ellipsis) ∧
    hasTagMarkup (stripHtmlAndTruncate (.str s) n) = false := by
  by_cases hse : s.data = []
  · have hres : stripHtmlAndTruncate (.str s) n = [] := by
      simp only [stripHtmlAndTruncate]
      rw [if_pos hse]
    have hpt : processedText s.data = [] := by rw [hse, processedText_nil]
    refine ⟨by rw [hres]; simp; omega, fun _ hne => absurd hse hne, ?_, by rw [hres]; rfl⟩
    intro hgt
    rw [hpt] at hgt
    simp at hgt
    omega
  · rcases le_or_lt ((processedText s.data).length : Int) n with hle | hgt
    · have hres : stripHtmlAndTruncate (.str s) n = processedText s.data := by
        simp only [stripHtmlAndTruncate]
        rw [if_neg hse, if_pos hle]
      refine ⟨by rw [hres]; exact hle, fun _ _ => hres, fun hgt => by omega, ?_⟩
      rw [hres]
      exact processedText_no_markup s.data
    · have hres : stripHtmlAndTruncate (.str s) n =
          (processedText s.data).take (n - 3).toNat ++ ellipsis := by
        simp only [stripHtmlAndTruncate]
        rw [if_neg hse, if_neg (by omega)]
        unfold jsSliceTo
        rw [if_neg (by omega)]
      have htn : ((processedText s.data).take (n - 3).toNat).length = (n - 3).toNat := by
        rw [List.length_take]
        omega
      refine ⟨?_, fun hle => by omega, fun _ => hres, ?_⟩
      · rw [hres, List.length_append, htn]
        have : ellipsis.length = 3 := rfl
        rw [this]
        push_cast
        omega
      · rw [hres]
        refine hasTagMarkup_append ?_ (by rfl) (by rfl)
        exact hasTagMarkup_sublist (List.take_sublist _ _) (processedText_no_markup s.data)

/-- Witness for C6 at a concrete input: the spec's example
`"<p>Hi <b>there</b></p>"` with bound 500 fits, is returned as the
stripped text, and carries no tag markup. -/
theorem stripHtmlAndTruncate_spec_witness :
    ((stripHtmlAndTruncate (.str "<p>Hi <b>there</b></p>") 500).length : Int) ≤ 500 ∧
    hasTagMarkup (stripHtmlAndTruncate (.str "<p>Hi <b>there</b></p>") 500) = false :=
  ⟨(stripHtmlAndTruncate_spec "<p>Hi <b>there</b></p>" 500 (by norm_num)).1,
   (stripHtmlAndTruncate_spec "<p>Hi <b>there</b></p>" 500 (by norm_num)).2.2.2⟩


/-! ## Identifier extraction (claim C3) -/

/--
Counterexample to **C3** as stated: extraction does *not* uniformly
prefer the flat field.  In `toAccountMinimal`, for a raw account with
both `owner_id: "F"` and `owner: (id: "N")`, the projected `owner_id` is
the nested `"N"`, not the flat `"F"` (the source computes
`owner?.id ?? raw.owner_id`).
-/
theorem identifier_extraction_counterexample :
    (toAccountMinimal
      (JObj.cons "owner_id" (JValue.str "F")
        (JObj.cons "owner" (JValue.obj (JObj.cons "id" (JValue.str "N") JObj.nil))
          JObj.nil))).getProp "owner_id" = JValue.str "N" ∧
    JValue.str "N" ≠ JValue.str "F" := by
  refine ⟨by rfl, ?_⟩
  simp

/--
**C3 (amended).** Identifier extraction is shape-agnostic but its
precedence differs by projector: for the issue extractors
(`account_id`, `assignee_id`, `requester_id`, `team_id`) the flat field
wins when it is a string and otherwise the nested object's `id` is used
(with `?? null` for all but `account_id`); in `toAccountMinimal`
(`owner_id`) and `toContactMinimal` (`account_id`) the nested object's
`id` wins when present, with the flat field as fallback.
-/
theorem identifier_extraction_precedence (raw : JObj) (s : String) :
    (raw.getProp "account_id" = .str s → extractAccountId raw = .str s) ∧
    ((∀ u : String, raw.getProp "account_id" ≠ .str u) →
      extractAccountId raw = jsGetId (raw.getProp "account")) ∧
    (raw.getProp "assignee_id" = .str s → extractAssigneeId raw = .str s) ∧
    ((∀ u : String, raw.getProp "assignee_id" ≠ .str u) →
      extractAssigneeId raw = jsCoalesce (jsGetId (raw.getProp "assignee")) .null) ∧
    (raw.getProp "requester_id" = .str s → extractRequesterId raw = .str s) ∧
    ((∀ u : String, raw.getProp "requester_id" ≠ .str u) →
      extractRequesterId raw = jsCoalesce (jsGetId (raw.getProp "requester")) .null) ∧
    (raw.getProp "team_id" = .str s → extractTeamId raw = .str s) ∧
    ((∀ u : String, raw.getProp "team_id" ≠ .str u) →
      extractTeamId raw = jsCoalesce (jsGetId (raw.getProp "team")) .null) ∧
    (jsGetId (raw.getProp "owner") = .str s →
      (toAccountMinimal raw).getProp "owner_id" = .str s) ∧
    (jsGetId (raw.getProp "owner") = .null ∨ jsGetId (raw.getProp "owner") = .undefined →
      (toAccountMinimal raw).getProp "owner_id" = raw.getProp "owner_id") ∧
    (jsGetId (raw.getProp "account") = .str s →
      (toContactMinimal raw).getProp "account_id" = .str s) ∧
    (jsGetId (raw.getProp "account") = .null ∨ jsGetId (raw.getProp "account") = .undefined →
      (toContactMinimal raw).getProp "account_id" = raw.getProp "account_id") := by
  have hacc : (toAccountMinimal raw).getProp "owner_id" =
      jsCoalesce (jsGetId (raw.getProp "owner")) (raw.getProp "owner_id") := rfl
  have hcon : (toContactMinimal raw).getProp "account_id" =
      jsCoalesce (jsGetId (raw.getProp "account")) (raw.getProp "account_id") := rfl
  refine ⟨?_, ?_, ?_, ?_, ?_, ?_, ?_, ?_, ?_, ?_, ?_, ?_⟩
  · intro h; unfold extractAccountId; rw [h]
  · intro h
    unfold extractAccountId
    rcases hv : raw.getProp "account_id" with u | _ | _ | _ | _ | _ | _
    · exact absurd hv (h u)
    all_goals rfl
  · intro h; unfold extractAssigneeId; rw [h]
  · intro h
    unfold extractAssigneeId
    rcases hv : raw.getProp "assignee_id" with u | _ | _ | _ | _ | _ | _
    · exact absurd hv (h u)
    all_goals rfl
  · intro h; unfold extractRequesterId; rw [h]
  · intro h
    unfold extractRequesterId
    rcases hv : raw.getProp "requester_id" with u | _ | _ | _ | _ | _ | _
    · exact absurd hv (h u)
    all_goals rfl
  · intro h; unfold extractTeamId; rw [h]
  · intro h
    unfold extractTeamId
    rcases hv : raw.getProp "team_id" with u | _ | _ | _ | _ | _ | _
    · exact absurd hv (h u)
    all_goals rfl
  · intro h; rw [hacc, h]; rfl
  · intro h; rw [hacc]; rcases h with h | h <;> rw [h] <;> rfl
  · intro h; rw [hcon, h]; rfl
  · intro h; rw [hcon]; rcases h with h | h <;> rw [h] <;> rfl

/-- Witness for C3 (amended) at concrete inputs: for an issue carrying
both `account_id: "A1"` and `account: (id: "A2")` the flat `"A1"` wins,
while for an account carrying `owner: (id: "N")` and `owner_id: "F"` the
nested `"N"` wins. -/
theorem identifier_extraction_precedence_witness :
    extractAccountId
      (JObj.cons "account_id" (JValue.str "A1")
        (JObj.cons "account" (JValue.obj (JObj.cons "id" (JValue.str "A2") JObj.nil))
          JObj.nil)) = JValue.str "A1" ∧
    (toAccountMinimal
      (JObj.cons "owner_id" (JValue.str "F")
        (JObj.cons "owner" (JValue.obj (JObj.cons "id" (JValue.str "N") JObj.nil))
          JObj.nil))).getProp "owner_id" = JValue.str "N" :=
  ⟨(identifier_extraction_precedence
      (JObj.cons "account_id" (JValue.str "A1")
        (JObj.cons "account" (JValue.obj (JObj.cons "id" (JValue.str "A2") JObj.nil))
          JObj.nil)) "A1").1 (by rfl),
   (identifier_extraction_precedence
      (JObj.cons "owner_id" (JValue.str "F")
        (JObj.cons "owner" (JValue.obj (JObj.cons "id" (JValue.str "N") JObj.nil))
          JObj.nil)) "N").2.2.2.2.2.2.2.2.1 (by rfl)⟩

/-! ## View containment (claim C5) -/

lemma JObj.entries_append (a b : JObj) :
    (a.append b).entries = a.entries ++ b.entries := by
  induction a using JObj.entries.induct with
  | case1 => rfl
  | case2 k v rest ih => simp [JObj.append, JObj.entries, ih]

/--
**C5.** For every raw issue record: every field of the Minimal view is
present with the same value in the Standard view, and every field of the
Standard view is present with the same value in the Full view; the Full
view always includes the body field `body_html`, while the Standard and
Minimal views never do.
-/
theorem issue_view_containment (raw : JObj) :
    (∀ kv : String × JValue,
      kv ∈ (toIssueMinimal raw).entries → kv ∈ (toIssueStandard raw).entries) ∧
    (∀ kv : String × JValue,
      kv ∈ (toIssueStandard raw).entries → kv ∈ (toIssueFull raw).entries) ∧
    "body_html" ∈ (toIssueFull raw).keys ∧
    "body_html" ∉ (toIssueStandard raw).keys ∧
    "body_html" ∉ (toIssueMinimal raw).keys := by
  have hs : (toIssueStandard raw).entries = (toIssueMinimal raw).entries ++
      (JObj.cons "requester_id" (extractRequesterId raw) (
       JObj.cons "team_id" (extractTeamId raw) (
       JObj.cons "resolution_time" (raw.getProp "resolution_time") (
       JObj.cons "latest_message_time" (raw.getProp "latest_message_time") (
       JObj.cons "first_response_time" (raw.getProp "first_response_time") (
       JObj.cons "customer_portal_visible" (raw.getProp "customer_portal_visible") (
       JObj.cons "source" (raw.getProp "source") (
       JObj.cons "type" (raw.getProp "type") JObj.nil)))))))).entries := by
    unfold toIssueStandard
    rw [JObj.entries_append]
  have hf : (toIssueFull raw).entries = (toIssueStandard raw).entries ++
      (JObj.cons "body_html"
        (.str ⟨stripHtmlAndTruncate (raw.getProp "body_html") MAX_BODY_LENGTH⟩)
        JObj.nil).entries := by
    unfold toIssueFull
    rw [JObj.entries_append]
  have hkm : (toIssueMinimal raw).keys =
      ["id", "number", "title", "state", "link", "created_at", "assignee_id",
       "account_id", "tags"] := rfl
  have hks : (toIssueStandard raw).keys =
      ["id", "number", "title", "state", "link", "created_at", "assignee_id",
       "account_id", "tags", "requester_id", "team_id", "resolution_time",
       "latest_message_time", "first_response_time", "customer_portal_visible",
       "source", "type"] := rfl
  have hkf : (toIssueFull raw).keys =
      ["id", "number", "title", "state", "link", "created_at", "assignee_id",
       "account_id", "tags", "requester_id", "team_id", "resolution_time",
       "latest_message_time", "first_response_time", "customer_portal_visible",
       "source", "type", "body_html"] := rfl
  refine ⟨?_, ?_, ?_, ?_, ?_⟩
  · intro kv h
    rw [hs]
    exact List.mem_append_left _ h
  · intro kv h
    rw [hf]
    exact List.mem_append_left _ h
  · rw [hkf]; decide
  · rw [hks]; decide
  · rw [hkm]; decide

/-- Witness for C5 at a concrete record: the `id` field of the Minimal
view of the empty raw record also appears in the Standard view. -/
theorem issue_view_containment_witness :
    ("id", JValue.undefined) ∈ (toIssueStandard JObj.nil).entries :=
  (issue_view_containment JObj.nil).1 ("id", JValue.undefined) (by
    simp [toIssueMinimal, JObj.entries, JObj.getProp])

/-! ## The Full view's body is always a string (claim C10) -/

/--
**C10.** For every raw issue record, the Full view's `body_html` field is
always a string (never `null` or absent); in particular when the raw
`body_html` is `null`, `undefined` (absent), or the empty string, it is
the empty string `""`.
-/
theorem toIssueFull_body_always_string (raw : JObj) :
    (∃ b : String, (toIssueFull raw).getProp "body_html" = .str b) ∧
    ((raw.getProp "body_html" = .null ∨ raw.getProp "body_html" = .undefined ∨
      raw.getProp "body_html" = .str "") →
      (toIssueFull raw).getProp "body_html" = .str "") := by
  have hb : (toIssueFull raw).getProp "body_html" =
      .str ⟨stripHtmlAndTruncate (raw.getProp "body_html") MAX_BODY_LENGTH⟩ := rfl
  refine ⟨⟨_, hb⟩, ?_⟩
  intro h
  rw [hb]
  rcases h with h | h | h <;> rw [h] <;> rfl

/-- Witness for C10 at a concrete record: a raw issue with `body_html:
null` projects to a Full view whose `body_html` is `""`. -/
theorem toIssueFull_body_always_string_witness :
    (toIssueFull (JObj.cons "body_html" JValue.null JObj.nil)).getProp "body_html" =
      JValue.str "" :=
  (toIssueFull_body_always_string (JObj.cons "body_html" JValue.null JObj.nil)).2
    (Or.inl (by rfl))


/-! ## Tabular rendering (claim C8) -/

/-- The global replacement of each `|` by the two characters backslash,
`|` (the first replacement in `escapeCell`, `src/index.ts`). -/
def escapePipes : List Char → List Char
  | [] => []
  | c :: rest =>
    if c = '|' then '\\' :: '|' :: escapePipes rest
    else c :: escapePipes rest

/-- The global replacement of each newline by a space (the second
replacement in `escapeCell`). -/
def newlinesToSpaces (l : List Char) : List Char :=
  l.map (fun c => if c = '\n' then ' ' else c)

/-- `escapeCell` of `src/index.ts`: falsy values (including the empty
string) render as the empty cell; otherwise pipes are backslash-escaped
and newlines become spaces. -/
def escapeCell (value : JValue) : List Char :=
  match value with
  | .str s => if s.data = [] then [] else newlinesToSpaces (escapePipes s.data)
  | _ => []

/-- `truncate` of `src/index.ts`. -/
def truncateCell (value : JValue) (maxLength : Int) : List Char :=
  match value with
  | .str s =>
    if s.data = [] then []
    else if (s.data.length : Int) ≤ maxLength then s.data
    else jsSliceTo s.data (maxLength - 3) ++ ellipsis
  | _ => []

/-- `MAX_TITLE_LENGTH` of `src/index.ts`. -/
def MAX_TITLE_LENGTH : Int := 60

/-- `Array.prototype.join(sep)`. -/
def joinWith (sep : List Char) : List (List Char) → List Char
  | [] => []
  | [x] => x
  | x :: xs => x ++ sep ++ joinWith sep xs

/-- The number cell `String(issue.number ?? '')` on its typed domain
(`number` is a number or absent). -/
def numberCellValue (issue : JObj) : List Char :=
  match issue.getProp "number" with
  | .num n => (toString n).data
  | _ => []

/-- The created cell `issue.created_at?.split('T')[0] || '-'`. -/
def createdCellValue (issue : JObj) : List Char :=
  match issue.getProp "created_at" with
  | .str s =>
    let d := s.data.takeWhile (fun c => c ≠ 'T')
    if d = [] then "-".data else d
  | _ => "-".data

/-- The link cell `issue.link || '-'` — the one cell that is *not*
passed through `escapeCell`. -/
def linkCellValue (issue : JObj) : List Char :=
  match issue.getProp "link" with
  | .str s => if s.data = [] then "-".data else s.data
  | _ => "-".data

/-- The five cells of one data row of `formatIssuesAsTable`. -/
def issueRowCells (issue : JObj) : List (List Char) :=
  [escapeCell (.str ⟨numberCellValue issue⟩),
   escapeCell (.str ⟨truncateCell (issue.getProp "title") MAX_TITLE_LENGTH⟩),
   escapeCell (issue.getProp "state"),
   escapeCell (.str ⟨createdCellValue issue⟩),
   linkCellValue issue]

/-- A rendered row: (pipe, space) ++ cells joined by " | " ++ (space, pipe). -/
def renderRow (cells : List (List Char)) : List Char :=
  "| ".data ++ joinWith " | ".data cells ++ " |".data

/-- `formatIssuesAsTable` of `src/index.ts` over Minimal issue views. -/
def formatIssuesAsTable (issues : List JObj) : List Char :=
  match issues with
  | [] => "No issues found.".data
  | _ =>
    let headers : List (List Char) :=
      ["#".data, "Title".data, "State".data, "Created".data, "Link".data]
    let headerRow := renderRow headers
    let separatorRow :=
      "|".data ++ joinWith "|".data (headers.map (fun _ => "---".data)) ++ "|".data
    let dataRows := joinWith ['\n'] (issues.map (fun issue => renderRow (issueRowCells issue)))
    headerRow ++ '\n' :: separatorRow ++ '\n' :: dataRows

/-- Escaped cells never contain a newline, whatever the input value. -/
lemma escapeCell_no_newline (v : JValue) : '\n' ∉ escapeCell v := by
  cases v with
  | str s =>
    by_cases hse : s.data = []
    · simp [escapeCell, hse]
    · simp only [escapeCell, if_neg hse, newlinesToSpaces]
      intro hmem
      obtain ⟨a, _, ha⟩ := List.mem_map.mp hmem
      by_cases han : a = '\n' <;> simp [han] at ha
  | num n => simp [escapeCell]
  | jbool b => simp [escapeCell]
  | null => simp [escapeCell]
  | undefined => simp [escapeCell]
  | arr xs => simp [escapeCell]
  | obj o => simp [escapeCell]

lemma count_join_newline_free (rows : List (List Char))
    (h : ∀ r ∈ rows, '\n' ∉ r) :
    (joinWith ['\n'] rows).count '\n' = rows.length - 1 := by
  induction rows with
  | nil => rfl
  | cons r rest ih =>
    match rest with
    | [] =>
      simp only [joinWith, List.length_cons]
      rw [List.count_eq_zero_of_not_mem (h r (by simp))]
      simp
    | r' :: rest' =>
      have hr : '\n' ∉ r := h r (by simp)
      have htail : ∀ x ∈ r' :: rest', '\n' ∉ x := fun x hx => h x (by simp [hx])
      simp only [joinWith, List.length_cons]
      rw [List.count_append, List.count_append,
        List.count_eq_zero_of_not_mem hr, ih htail]
      simp [List.count_cons]
      omega

/-- A rendered row over newline-free cells is newline-free. -/
lemma renderRow_no_newline (cells : List (List Char))
    (h : ∀ c ∈ cells, '\n' ∉ c) : '\n' ∉ renderRow cells := by
  unfold renderRow
  intro hmem
  rcases List.mem_append.mp hmem with hmem' | hmem'
  · rcases List.mem_append.mp hmem' with hh | hh
    · exact absurd hh (by decide)
    · clear hmem hmem'
      induction cells with
      | nil => simp [joinWith] at hh
      | cons c rest ih =>
        match rest with
        | [] =>
          simp only [joinWith] at hh
          exact h c (by simp) hh
        | r' :: rest' =>
          simp only [joinWith] at hh
          rcases List.mem_append.mp hh with h1 | h1
          · rcases List.mem_append.mp h1 with h2 | h2
            · exact h c (by simp) h2
            · revert h2
              decide
          · exact ih (fun x hx => h x (by simp at hx ⊢; tauto)) h1
  · revert hmem'
    decide


/--
Counterexample to **C8** as stated: not every cell value is escaped — the
link cell is inserted verbatim (`issue.link || '-'`).  A Minimal view
whose `link` contains a newline adds a row to the rendered table: with
one issue the table should consist of 3 lines (2 newlines), but a link
of `"x\ny"` yields 3 newlines.
-/
theorem formatIssuesAsTable_counterexample :
    (formatIssuesAsTable
      [toIssueMinimal (JObj.cons "link" (JValue.str "x\ny") JObj.nil)]).count '\n' = 3 ∧
    (formatIssuesAsTable
      [toIssueMinimal (JObj.cons "link" (JValue.str "x") JObj.nil)]).count '\n' = 2 := by
  constructor <;> decide

/--
**C8 (amended).** In the tabular rendering of issues, every cell except
the link cell is escaped (pipes backslash-escaped, newlines replaced by a
space) after the title is truncated to its fixed width, and an escaped
cell never contains a newline, whatever the value; consequently, for
every non-empty sequence of Minimal views whose link cells contain no
newline, the rendered table has exactly `issues.length + 2` lines
(`issues.length + 1` newlines) — only the unescaped link cell can alter
the row structure.
-/
theorem formatIssuesAsTable_row_structure (issues : List JObj) (hne : issues ≠ [])
    (hlink : ∀ issue ∈ issues, '\n' ∉ linkCellValue issue) :
    (formatIssuesAsTable issues).count '\n' = issues.length + 1 ∧
    (∀ v : JValue, '\n' ∉ escapeCell v) := by
  refine ⟨?_, escapeCell_no_newline⟩
  match issues with
  | [] => exact absurd rfl hne
  | issue0 :: rest =>
    simp only [formatIssuesAsTable]
    rw [List.count_append, List.count_cons, List.count_append, List.count_cons]
    have hhead : List.count '\n'
        (renderRow ["#".data, "Title".data, "State".data, "Created".data, "Link".data]) = 0 := by
      decide
    have hsep : List.count '\n'
        ("|".data ++ joinWith "|".data
          ((["#".data, "Title".data, "State".data, "Created".data,
            "Link".data].map (fun _ => "---".data))) ++ "|".data) = 0 := by
      decide
    have hrows : List.count '\n'
        (joinWith ['\n']
          ((issue0 :: rest).map (fun issue => renderRow (issueRowCells issue)))) =
        (issue0 :: rest).length - 1 := by
      rw [count_join_newline_free]
      · rw [List.length_map]
      · intro r hr
        obtain ⟨issue, hmem, rfl⟩ := List.mem_map.mp hr
        refine renderRow_no_newline _ ?_
        intro c hc
        simp only [issueRowCells, List.mem_cons] at hc
        rcases hc with rfl | rfl | rfl | rfl | hc
        · exact escapeCell_no_newline _
        · exact escapeCell_no_newline _
        · exact escapeCell_no_newline _
        · exact escapeCell_no_newline _
        · simp only [List.mem_singleton, List.not_mem_nil] at hc
          rcases hc with rfl | hc
          · exact hlink issue hmem
          · exact absurd hc (by simp)
    rw [hhead, hsep, hrows]
    simp [List.length_cons]
    omega

/-- Witness for C8 (amended) at a concrete input: one Minimal view with a
newline-free link renders as a 3-line table (2 newlines). -/
theorem formatIssuesAsTable_row_structure_witness :
    (formatIssuesAsTable
      [toIssueMinimal (JObj.cons "link" (JValue.str "https://x") JObj.nil)]).count '\n' =
      1 + 1 :=
  (formatIssuesAsTable_row_structure
    [toIssueMinimal (JObj.cons "link" (JValue.str "https://x") JObj.nil)]
    (by simp)
    (by intro issue hmem
        simp only [List.mem_singleton] at hmem
        subst hmem
        decide)).1


/-! ## Dedicated body retrieval (claim C9) -/

/-- The observable outcome of the `pylon_get_issue_body` tool: either the
no-content message, or the body text together with the reported counts
`(total chars, shown chars)` of the message
`"Issue #N body (X chars total, showing Y): ..."`. -/
inductive GetIssueBodyResult : Type where
  | noContent : GetIssueBodyResult
  | body : Nat → Nat → List Char → GetIssueBodyResult

/--
The `pylon_get_issue_body` tool handler of `src/index.ts`, applied to the
fetched raw record and the caller's `max_length` (already validated by
the 100–10000 schema bounds; `none` when omitted): a falsy `body_html`
yields the no-content message; otherwise the body is stripped, collapsed
and trimmed, truncated to `max_length ?? 2000`, and returned with the
untruncated character count of the stripped text (`text.length`) and the
shown count (`truncated.length`).
-/
def pylonGetIssueBody (raw : JObj) (max_length : Option Int) : GetIssueBodyResult :=
  match raw.getProp "body_html" with
  | .str s =>
    if s.data = [] then .noContent
    else
      let maxLen := max_length.getD 2000
      let text := processedText s.data
      let truncated :=
        if (text.length : Int) > maxLen then jsSliceTo text (maxLen - 3) ++ ellipsis
        else text
      .body text.length truncated.length truncated
  | _ => .noContent

/--
**C9.** `pylon_get_issue_body` takes a caller-chosen maximum length
constrained to 100–10000 and defaults it to 2000 when omitted; when the
record has a non-empty body it returns the HTML-stripped text truncated
to that maximum together with the original untruncated character count of
the stripped body, so the caller can judge whether to request more; when
the record has no body (null, absent, or empty) it returns the
no-content message.
-/
theorem pylon_get_issue_body_spec (raw : JObj) (ml : Option Int)
    (hml : ∀ m, ml = some m → 100 ≤ m ∧ m ≤ 10000) :
    ((raw.getProp "body_html" = .null ∨ raw.getProp "body_html" = .undefined ∨
      raw.getProp "body_html" = .str "") → pylonGetIssueBody raw ml = .noContent) ∧
    (∀ s : String, raw.getProp "body_html" = .str s → s.data ≠ [] →
      ∃ text : List Char,
        pylonGetIssueBody raw ml = .body (processedText s.data).length text.length text ∧
        ((text.length : Int) ≤ ml.getD 2000) ∧
        (((processedText s.data).length : Int) ≤ ml.getD 2000 →
          text = processedText s.data) ∧
        (((processedText s.data).length : Int) > ml.getD 2000 →
          text = (processedText s.data).take (ml.getD 2000 - 3).toNat ++ ellipsis)) := by
  have hcap : (100 : Int) ≤ ml.getD 2000 := by
    match ml with
    | none => norm_num [Option.getD]
    | some m => simpa [Option.getD] using (hml m rfl).1
  constructor
  · intro h
    rcases h with h | h | h <;> simp only [pylonGetIssueBody, h]
    rfl
  · intro s hs hne
    simp only [pylonGetIssueBody, hs, if_neg hne]
    rcases le_or_lt ((processedText s.data).length : Int) (ml.getD 2000) with hle | hgt
    · refine ⟨processedText s.data, ?_, hle, fun _ => rfl, fun hgt => by omega⟩
      rw [if_neg (by omega)]
    · have htake : (jsSliceTo (processedText s.data) (ml.getD 2000 - 3)).length =
          (ml.getD 2000 - 3).toNat := by
        unfold jsSliceTo
        rw [if_neg (by omega), List.length_take]
        omega
      refine ⟨jsSliceTo (processedText s.data) (ml.getD 2000 - 3) ++ ellipsis, ?_, ?_, ?_, ?_⟩
      · rw [if_pos hgt]
      · rw [List.length_append, htake]
        have : ellipsis.length = 3 := rfl
        rw [this]
        push_cast
        omega
      · intro h; omega
      · intro _
        unfold jsSliceTo
        rw [if_neg (by omega)]
  
/-- Witness for C9 at concrete inputs: a record with `body_html: null`
yields the no-content message, and a record whose stripped body is
`"hello"` with the default cap reports 5 total characters and returns the
full text. -/
theorem pylon_get_issue_body_spec_witness :
    pylonGetIssueBody (JObj.cons "body_html" JValue.null JObj.nil) none = .noContent ∧
    ∃ text : List Char,
      pylonGetIssueBody (JObj.cons "body_html" (JValue.str "<p>hello</p>") JObj.nil) none =
        .body (processedText "<p>hello</p>".data).length text.length text ∧
      ((text.length : Int) ≤ (none : Option Int).getD 2000) := by
  constructor
  · exact (pylon_get_issue_body_spec (JObj.cons "body_html" JValue.null JObj.nil) none
      (fun m hm => by cases hm)).1 (Or.inl (by rfl))
  · obtain ⟨text, h1, h2, _, _⟩ :=
      (pylon_get_issue_body_spec (JObj.cons "body_html" (JValue.str "<p>hello</p>") JObj.nil)
        none (fun m hm => by cases hm)).2 "<p>hello</p>" (by rfl) (by simp)
    exact ⟨text, h1, h2⟩

end PylonMcp
